import Mathlib

/-!
Shallow embedding of `src/extension.js` (the `TaskTimerProvider` class of the
simple-task-tracker editor extension).

The controller state (`St`) carries the two in-memory lists (`timers`,
`tasks`), the two persisted key-value entries (`storedTimers`, `storedTasks`,
the `globalState` keys `activeTimers` and `tasks`), the two status-bar
strings, the panel (webview) attachment flag and the list of `update`
messages pushed to it, the user-visible messages and desktop notifications,
and the set of registered periodic interval callbacks (`registered`,
identified by handles drawn from the counter `nextHandle`; `setInterval`
returns a fresh process-local handle, `clearInterval h` deregisters it).

Machine integers: JS numbers used here are integral millisecond timestamps
and list indices, embedded as `Int` (indices may be negative); `Math.floor`
of a quotient is `Int.fdiv` and the JS `%` operator (sign of the dividend)
is `Int.tmod`.
-/

namespace TaskTracker

/-- A task record `{ description, completed }` (src/extension.js line 127). -/
structure Task where
  description : String
  completed : Bool
deriving DecidableEq

/-- A persisted timer snapshot entry: only `label` and `endTime` are stored
in `globalState` (src/extension.js lines 251-254). -/
structure StoredTimer where
  label : String
  endTime : Int
deriving DecidableEq

/-- The body a registered periodic callback runs: `fresh` is the closure
created in `startTimer` (lines 149-162), which captures the deduplicated
label and the end time; `restored` is the closure created in `restoreTimers`
(lines 202-207), which only checks the end time. -/
inductive Callback where
  | fresh (label : String) (endTime : Int)
  | restored (endTime : Int)
deriving DecidableEq

/-- A registered `setInterval` callback: its process-local handle and its
body. `clearInterval` removes the entry with the given handle. -/
structure Interval where
  handle : Nat
  callback : Callback
deriving DecidableEq

/-- An active timer record `{ label, timerInterval, endTime }`
(src/extension.js line 164); `timerInterval` is the interval handle. -/
structure Timer where
  label : String
  timerInterval : Nat
  endTime : Int
deriving DecidableEq

/-- The full controller state of `TaskTimerProvider`. -/
structure St where
  timers : List Timer
  tasks : List Task
  storedTimers : List StoredTimer
  storedTasks : List Task
  timerBarText : String
  taskBarText : String
  webviewAttached : Bool
  webviewMessages : List (List Task × List (String × String))
  infoMessages : List String
  errorMessages : List String
  notifications : List String
  registered : List Interval
  nextHandle : Nat
deriving DecidableEq

/-- JS `String.prototype.padStart(n, c)`: left-pad to length at least `n`. -/
def padStart (s : String) (n : Nat) (c : Char) : String :=
  String.mk (List.replicate (n - s.length) c) ++ s

/-- Projection used when persisting timers: keep only `label` and `endTime`
(src/extension.js lines 251-254). -/
def serializeTimer (timer : Timer) : StoredTimer :=
  { label := timer.label, endTime := timer.endTime }

/-- The comparator `(a, b) => a.endTime - b.endTime` of line 108, as the
boolean `≤` the stable sort uses. -/
def leEnd (a b : Timer) : Bool :=
  decide (a.endTime ≤ b.endTime)

/-- First half of `updateStatusBar` (src/extension.js lines 103-113): if no
timer is active show the fixed string, otherwise sort `this.timers` in place
by ascending `endTime`, take the first (soonest) timer and format its
remaining time as `minutes:seconds` with the seconds zero-padded to two
digits. -/
def updateTimerBar (now : Int) (st : St) : St :=
  let activeTimers := st.timers.length
  if activeTimers = 0 then
    { st with timerBarText := "No active timers" }
  else
    match st.timers.mergeSort leEnd with
    | [] => { st with timers := [] }
    | nextTimer :: rest =>
      let remainingTime := nextTimer.endTime - now
      let minutesLeft := Int.fdiv remainingTime (60 * 1000)
      let secondsLeft := Int.fdiv (Int.tmod remainingTime (60 * 1000)) 1000
      { st with
        timers := nextTimer :: rest,
        timerBarText := toString activeTimers ++ " active timer(s) 🕒 " ++
          nextTimer.label ++ ": " ++ toString minutesLeft ++ ":" ++
          padStart (toString secondsLeft) 2 '0' }

/-- Second half of `updateStatusBar` (src/extension.js lines 115-121): the
task summary string. -/
def updateTaskBar (st : St) : St :=
  let totalTasks := st.tasks.length
  if 0 < totalTasks then
    let completedTasks := (st.tasks.filter (fun t => t.completed)).length
    { st with taskBarText :=
        toString completedTasks ++ "/" ++ toString totalTasks ++ " tasks completed" }
  else
    { st with taskBarText := "No tasks" }

/-- `updateStatusBar` (src/extension.js lines 103-122). -/
def updateStatusBar (now : Int) (st : St) : St :=
  updateTaskBar (updateTimerBar now st)

/-- The timer entry pushed to the webview: label plus remaining whole
minutes (src/extension.js lines 234-237). -/
def webviewTimerEntry (now : Int) (timer : Timer) : String × String :=
  (timer.label, toString (Int.fdiv (timer.endTime - now) (60 * 1000)) ++ " min")

/-- `sendDataToWebview` (src/extension.js lines 232-244): if a panel view is
attached, push one `update` message with the tasks and the serialized
timers. -/
def sendDataToWebview (now : Int) (st : St) : St :=
  if st.webviewAttached then
    { st with webviewMessages :=
        st.webviewMessages ++ [(st.tasks, st.timers.map (webviewTimerEntry now))] }
  else st

/-- `updateViews` (src/extension.js lines 246-257): refresh the status bar,
push to the webview, then rewrite both persisted entries wholesale. -/
def updateViews (now : Int) (st : St) : St :=
  let st1 := updateStatusBar now st
  let st2 := sendDataToWebview now st1
  { st2 with
    storedTimers := st2.timers.map serializeTimer,
    storedTasks := st2.tasks }

/-- `editTask` (src/extension.js lines 62-67): in-place description
overwrite, silently ignored when the index is out of range. -/
def editTask (now : Int) (index : Int) (description : String) (st : St) : St :=
  if 0 ≤ index ∧ index < (st.tasks.length : Int) then
    updateViews now
      { st with tasks :=
          List.modify (fun t => { t with description := description }) index.toNat st.tasks }
  else st

/-- `toggleTask` (src/extension.js lines 69-74). -/
def toggleTask (now : Int) (index : Int) (st : St) : St :=
  if 0 ≤ index ∧ index < (st.tasks.length : Int) then
    updateViews now
      { st with tasks :=
          List.modify (fun t => { t with completed := !t.completed }) index.toNat st.tasks }
  else st

/-- `deleteTask` (src/extension.js lines 76-81): `splice(index, 1)`. -/
def deleteTask (now : Int) (index : Int) (st : St) : St :=
  if 0 ≤ index ∧ index < (st.tasks.length : Int) then
    updateViews now { st with tasks := st.tasks.eraseIdx index.toNat }
  else st

/-- `addTask` (src/extension.js lines 124-129): an empty (cancelled) input
is rejected, otherwise append an uncompleted task. -/
def addTask (now : Int) (task : String) (st : St) : St :=
  if task = "" then st
  else updateViews now
    { st with tasks := st.tasks ++ [{ description := task, completed := false }] }

/-- Does some active timer carry exactly this label
(`this.timers.some(t => t.label === label)`, src/extension.js line 145)? -/
def hasLabel (timers : List Timer) (label : String) : Bool :=
  timers.any (fun t => t.label == label)

/-- The label-deduplication loop of `startTimer` (src/extension.js lines
145-147): `while (this.timers.some(t => t.label === label)) label += '*'`.
The loop is embedded with explicit fuel; `timers.length + 1` rounds always
suffice because the candidate labels are pairwise distinct. -/
def dedupLabel : Nat → List Timer → String → String
  | 0, _, label => label
  | fuel + 1, timers, label =>
    if hasLabel timers label then dedupLabel fuel timers (label ++ "*")
    else label

/-- `startTimer` (src/extension.js lines 132-166) after the two input
prompts: an empty label or a non-positive minutes value is rejected with no
timer created; otherwise compute the absolute end time, deduplicate the
label, register the periodic callback (a fresh `setInterval` handle), push
the new timer record and sync the views. -/
def startTimer (now : Int) (label0 : String) (minutes : Int) (st : St) : St :=
  if label0 = "" then st
  else if minutes ≤ 0 then st
  else
    let endTime := now + minutes * 60 * 1000
    let label := dedupLabel (st.timers.length + 1) st.timers label0
    let timerInterval := st.nextHandle
    updateViews now
      { st with
        registered := st.registered ++
          [{ handle := timerInterval, callback := Callback.fresh label endTime }],
        nextHandle := st.nextHandle + 1,
        timers := st.timers ++
          [{ label := label, timerInterval := timerInterval, endTime := endTime }] }

/-- `clearInterval h`: deregister the periodic callback with handle `h`. -/
def deregister (h : Nat) (st : St) : St :=
  { st with registered := st.registered.filter (fun iv => iv.handle != h) }

/-- The body of the interval callback registered in `startTimer`
(src/extension.js lines 149-162), run at wall-clock time `now`: when the
remaining time reaches `<= 0` it cancels itself, emits the desktop
notification and the in-editor completion message, removes the timer from
the active list by label and refreshes the status bar (it does not call
`updateViews`); otherwise it just refreshes the status bar. -/
def tickFresh (now : Int) (h : Nat) (label : String) (endTime : Int) (st : St) : St :=
  let remainingTime := endTime - now
  if remainingTime ≤ 0 then
    let st1 := deregister h st
    let st2 := { st1 with
      notifications := st1.notifications ++ [label ++ " timer has completed."],
      infoMessages := st1.infoMessages ++ [label ++ " timer has completed."] }
    updateStatusBar now { st2 with timers := st2.timers.filter (fun t => t.label != label) }
  else
    updateStatusBar now st

/-- The body of the interval callback re-armed in `restoreTimers`
(src/extension.js lines 202-207): at expiry it only cancels itself —
nothing else happens. -/
def tickRestored (now : Int) (h : Nat) (endTime : Int) (st : St) : St :=
  if endTime - now ≤ 0 then deregister h st else st

/-- Run one registered interval callback at wall-clock time `now`. -/
def runCallback (now : Int) (iv : Interval) (st : St) : St :=
  match iv.callback with
  | Callback.fresh label endTime => tickFresh now iv.handle label endTime st
  | Callback.restored endTime => tickRestored now iv.handle endTime st

/-- `stopTimer` (src/extension.js lines 169-179): find the timer by exact
label; when found cancel its callback, report, remove it and sync views;
otherwise surface an error message naming the label. -/
def stopTimer (now : Int) (label : String) (st : St) : St :=
  match st.timers.find? (fun timer => timer.label == label) with
  | some timer =>
    let st1 := deregister timer.timerInterval st
    updateViews now
      { st1 with
        infoMessages := st1.infoMessages ++ [label ++ " timer stopped."],
        timers := st1.timers.filter (fun t => t.label != label) }
  | none =>
    { st with errorMessages :=
        st.errorMessages ++ ["No timer found with label \"" ++ label ++ "\"."] }

/-- `clearTimers` (src/extension.js lines 182-190): cancel every active
timer's callback, empty the list, clear the persisted entry, report and
sync views. -/
def clearTimers (now : Int) (st : St) : St :=
  let st1 := { st with registered :=
    st.registered.filter (fun iv => !(st.timers.any (fun t => t.timerInterval == iv.handle))) }
  updateViews now
    { st1 with
      timers := [],
      storedTimers := [],
      infoMessages := st1.infoMessages ++ ["All timers cleared."] }

/-- One iteration of the `stored_timers.forEach` loop in `restoreTimers`
(src/extension.js lines 197-215): an already-expired entry only emits the
completion message; a live one re-arms a periodic callback (with the
`restored` body) and re-adds the timer record. -/
def restoreOne (now : Int) (timer : StoredTimer) (st : St) : St :=
  let remainingTime := timer.endTime - now
  if remainingTime ≤ 0 then
    { st with infoMessages := st.infoMessages ++ [timer.label ++ " timer has completed."] }
  else
    let timerInterval := st.nextHandle
    { st with
      registered := st.registered ++
        [{ handle := timerInterval, callback := Callback.restored timer.endTime }],
      nextHandle := st.nextHandle + 1,
      timers := st.timers ++
        [{ label := timer.label, timerInterval := timerInterval, endTime := timer.endTime }] }

/-- The sequential `forEach` over the persisted entries. -/
def restoreLoop (now : Int) : List StoredTimer → St → St
  | [], st => st
  | e :: rest, st => restoreLoop now rest (restoreOne now e st)

/-- `restoreTimers` (src/extension.js lines 193-218): reset the in-memory
list, walk the persisted snapshot, then refresh the status bar. -/
def restoreTimers (now : Int) (st : St) : St :=
  updateStatusBar now (restoreLoop now st.storedTimers { st with timers := [] })

/-- `restoreTasks` (src/extension.js lines 220-222). -/
def restoreTasks (st : St) : St :=
  { st with tasks := st.storedTasks }

/-- The freshly activated controller with empty storage: both lists empty,
both persisted entries initialized to `[]` (src/extension.js lines 11-21),
the two initial status-bar strings (lines 88 and 95), no panel attached, no
callbacks registered. -/
def initSt : St :=
  { timers := []
    tasks := []
    storedTimers := []
    storedTasks := []
    timerBarText := "No active timers"
    taskBarText := "No tasks"
    webviewAttached := false
    webviewMessages := []
    infoMessages := []
    errorMessages := []
    notifications := []
    registered := []
    nextHandle := 0 }

/-- One event-loop turn of the controller: a user command, a panel message,
a registered interval callback firing, or the activation-time restore. A
tick may only fire for a currently registered callback. -/
inductive Step : St → St → Prop where
  | addTaskS (now : Int) (task : String) (st : St) : Step st (addTask now task st)
  | editTaskS (now index : Int) (description : String) (st : St) :
      Step st (editTask now index description st)
  | toggleTaskS (now index : Int) (st : St) : Step st (toggleTask now index st)
  | deleteTaskS (now index : Int) (st : St) : Step st (deleteTask now index st)
  | startTimerS (now : Int) (label : String) (minutes : Int) (st : St) :
      Step st (startTimer now label minutes st)
  | stopTimerS (now : Int) (label : String) (st : St) : Step st (stopTimer now label st)
  | clearTimersS (now : Int) (st : St) : Step st (clearTimers now st)
  | tickS (now : Int) (iv : Interval) (st : St) :
      iv ∈ st.registered → Step st (runCallback now iv st)
  | restoreS (now : Int) (st : St) : Step st (restoreTimers now st)
  | restoreTasksS (st : St) : Step st (restoreTasks st)
  | attachS (st : St) : Step st { st with webviewAttached := true }
  | getDataS (now : Int) (st : St) : Step st (sendDataToWebview now st)

/-- Zero or more event-loop turns. -/
def Steps : St → St → Prop :=
  Relation.ReflTransGen Step

/-- States the program can reach from a fresh activation with empty
storage. -/
def Reachable (st : St) : Prop :=
  Steps initSt st

/-- The handles of the currently registered interval callbacks. -/
def regHandles (st : St) : List Nat :=
  st.registered.map (fun iv => iv.handle)

/-- The spec's persistence invariant: the persisted `activeTimers` entry is
the projection of the in-memory timer list and the persisted `tasks` entry
is the in-memory task list. -/
def persistedMatches (st : St) : Prop :=
  st.storedTimers = st.timers.map serializeTimer ∧ st.storedTasks = st.tasks

/-- Every registered callback's handle and every active timer's handle was
drawn from the handle counter. -/
def HandleInv (st : St) : Prop :=
  (∀ iv ∈ st.registered, iv.handle < st.nextHandle) ∧
  (∀ t ∈ st.timers, t.timerInterval < st.nextHandle)

/-- The labels of the active timers, and of the persisted snapshot entries,
are pairwise distinct. -/
def LabelsInv (st : St) : Prop :=
  (st.timers.map (fun t => t.label)).Nodup ∧
  (st.storedTimers.map (fun e => e.label)).Nodup

/-- The marker string of `k` appended `'*'` characters. -/
def stars : Nat → String
  | 0 => ""
  | k + 1 => "*" ++ stars k

/-- A state with one active timer "A" ending at 100000ms, its callback
registered under handle 0. -/
def exTimerSt : St :=
  { initSt with
    timers := [{ label := "A", timerInterval := 0, endTime := 100000 }]
    registered := [{ handle := 0, callback := Callback.fresh "A" 100000 }]
    nextHandle := 1 }

/-- A state holding only a persisted snapshot with one entry "A" ending at
60000ms, as left behind by a crashed/restarted editor. -/
def exSnapshotSt : St :=
  { initSt with storedTimers := [{ label := "A", endTime := 60000 }] }

/-- One active timer "A" whose snapshot entry is currently in sync. -/
def exSyncedSt : St :=
  { initSt with
    timers := [{ label := "A", timerInterval := 0, endTime := 60000 }]
    storedTimers := [{ label := "A", endTime := 60000 }]
    registered := [{ handle := 0, callback := Callback.fresh "A" 60000 }]
    nextHandle := 1 }

/-- An active timer list that is NOT in ascending endTime order ("B" before
"A"), with its faithful (also unsorted) snapshot projection. -/
def exUnsortedSt : St :=
  { initSt with
    timers := [{ label := "B", timerInterval := 0, endTime := 200000 },
               { label := "A", timerInterval := 1, endTime := 100000 }]
    storedTimers := [{ label := "B", endTime := 200000 },
                     { label := "A", endTime := 100000 }]
    nextHandle := 2 }

/-- A persisted snapshot sorted by ascending endTime, as the program itself
writes it. -/
def exSortedSnapshotSt : St :=
  { initSt with
    storedTimers := [{ label := "A", endTime := 100000 },
                     { label := "B", endTime := 200000 }] }

attribute [local semireducible] List.merge List.mergeSort

theorem stars_length : ∀ k, (stars k).length = k := by
  intro k
  induction k with
  | zero => rfl
  | succ k ih =>
    rw [stars, String.length_append, ih, show "*".length = 1 from rfl, Nat.add_comm]

theorem append_stars_zero (s : String) : s ++ stars 0 = s := by
  rw [stars, String.append_empty]

theorem append_stars_succ (s : String) (k : Nat) :
    s ++ stars (k + 1) = (s ++ "*") ++ stars k := by
  rw [stars, String.append_assoc]

theorem append_stars_length (s : String) (k : Nat) :
    (s ++ stars k).length = s.length + k := by
  rw [String.length_append, stars_length]

theorem hasLabel_iff (timers : List Timer) (s : String) :
    hasLabel timers s = true ↔ s ∈ timers.map (fun t => t.label) := by
  simp only [hasLabel, List.any_eq_true, beq_iff_eq, List.mem_map]

theorem exists_no_collision (timers : List Timer) (label : String) :
    ∃ j, j < timers.length + 1 ∧ hasLabel timers (label ++ stars j) = false := by
  by_contra hcon
  push_neg at hcon
  have hall : ∀ j, j < timers.length + 1 →
      (label ++ stars j) ∈ timers.map (fun t => t.label) := by
    intro j hj
    have hne := hcon j hj
    have hbt : hasLabel timers (label ++ stars j) = true := by
      cases hb : hasLabel timers (label ++ stars j) with
      | false => exact absurd hb hne
      | true => rfl
    exact (hasLabel_iff _ _).1 hbt
  have hnodup : ((List.range (timers.length + 1)).map (fun j => label ++ stars j)).Nodup := by
    refine List.Nodup.map ?_ (List.nodup_range _)
    intro a b hab
    have hlen := congrArg String.length hab
    rw [append_stars_length, append_stars_length] at hlen
    omega
  have hsub : ∀ s ∈ (List.range (timers.length + 1)).map (fun j => label ++ stars j),
      s ∈ timers.map (fun t => t.label) := by
    intro s hs
    simp only [List.mem_map, List.mem_range] at hs
    obtain ⟨j, hj, rfl⟩ := hs
    exact hall j hj
  have hcard1 : ((List.range (timers.length + 1)).map (fun j => label ++ stars j)).toFinset.card
      = timers.length + 1 := by
    rw [List.toFinset_card_of_nodup hnodup, List.length_map, List.length_range]
  have hsubF : ((List.range (timers.length + 1)).map (fun j => label ++ stars j)).toFinset
      ⊆ (timers.map (fun t => t.label)).toFinset := by
    intro s hs
    rw [List.mem_toFinset] at hs ⊢
    exact hsub s hs
  have hle := Finset.card_le_card hsubF
  rw [hcard1] at hle
  have h2 := List.toFinset_card_le (timers.map (fun t => t.label))
  rw [List.length_map] at h2
  omega

theorem dedupLabel_spec_aux :
    ∀ (fuel : Nat) (timers : List Timer) (label : String),
      (∃ j, j < fuel ∧ hasLabel timers (label ++ stars j) = false) →
      ∃ k, dedupLabel fuel timers label = label ++ stars k ∧
        (∀ j, j < k → hasLabel timers (label ++ stars j) = true) ∧
        hasLabel timers (label ++ stars k) = false := by
  intro fuel
  induction fuel with
  | zero =>
    rintro timers label ⟨j, hj, -⟩
    omega
  | succ fuel ih =>
    rintro timers label ⟨j, hj, hfree⟩
    by_cases hc : hasLabel timers label = true
    · obtain ⟨j', rfl⟩ : ∃ j', j = j' + 1 := by
        rcases j with - | j'
        · rw [append_stars_zero] at hfree
          rw [hc] at hfree
          exact absurd hfree (by decide)
        · exact ⟨j', rfl⟩
      rw [append_stars_succ] at hfree
      obtain ⟨k', hk'eq, hk'coll, hk'free⟩ :=
        ih timers (label ++ "*") ⟨j', by omega, hfree⟩
      refine ⟨k' + 1, ?_, ?_, ?_⟩
      · rw [dedupLabel, if_pos hc, hk'eq, append_stars_succ]
      · intro j hj'
        rcases j with - | j''
        · rw [append_stars_zero]
          exact hc
        · rw [append_stars_succ]
          exact hk'coll j'' (by omega)
      · rw [append_stars_succ]
        exact hk'free
    · have hfalse : hasLabel timers label = false := by
        cases hb : hasLabel timers label with
        | false => rfl
        | true => exact absurd hb hc
      refine ⟨0, ?_, ?_, ?_⟩
      · rw [dedupLabel, if_neg (by rw [hfalse]; decide), append_stars_zero]
      · intro j hj'
        omega
      · rw [append_stars_zero]
        exact hfalse

theorem dedupLabel_spec (timers : List Timer) (label : String) :
    ∃ k, dedupLabel (timers.length + 1) timers label = label ++ stars k ∧
      (∀ j, j < k → hasLabel timers (label ++ stars j) = true) ∧
      hasLabel timers (label ++ stars k) = false :=
  dedupLabel_spec_aux _ _ _ (exists_no_collision timers label)

theorem dedupLabel_fresh (timers : List Timer) (label : String) :
    hasLabel timers (dedupLabel (timers.length + 1) timers label) = false := by
  obtain ⟨k, hk, -, hfree⟩ := dedupLabel_spec timers label
  rw [hk]
  exact hfree

theorem updateTaskBar_spec (st : St) :
    ∃ s, updateTaskBar st = { st with taskBarText := s } := by
  unfold updateTaskBar
  dsimp only
  split
  · exact ⟨_, rfl⟩
  · exact ⟨_, rfl⟩

theorem updateTimerBar_spec (now : Int) (st : St) :
    ∃ tms s, updateTimerBar now st = { st with timers := tms, timerBarText := s } ∧
      tms.Perm st.timers := by
  unfold updateTimerBar
  dsimp only
  split
  · exact ⟨st.timers, "No active timers", rfl, List.Perm.refl _⟩
  · split
    · next heq => exact ⟨[], st.timerBarText, rfl, heq ▸ List.mergeSort_perm st.timers leEnd⟩
    · next nextTimer rest heq =>
      exact ⟨nextTimer :: rest, _, rfl, heq ▸ List.mergeSort_perm st.timers leEnd⟩

theorem updateStatusBar_spec (now : Int) (st : St) :
    ∃ tms s1 s2, updateStatusBar now st =
      { st with timers := tms, timerBarText := s1, taskBarText := s2 } ∧
      tms.Perm st.timers := by
  obtain ⟨tms, s1, h1, hp⟩ := updateTimerBar_spec now st
  obtain ⟨s2, h2⟩ := updateTaskBar_spec (updateTimerBar now st)
  refine ⟨tms, s1, s2, ?_, hp⟩
  unfold updateStatusBar
  rw [h1] at h2
  rw [h1, h2]

theorem sendDataToWebview_spec (now : Int) (st : St) :
    ∃ wm, sendDataToWebview now st = { st with webviewMessages := wm } := by
  unfold sendDataToWebview
  split
  · exact ⟨_, rfl⟩
  · exact ⟨st.webviewMessages, rfl⟩

theorem updateViews_spec (now : Int) (st : St) :
    ∃ tms s1 s2 wm, updateViews now st =
      { st with
        timers := tms, timerBarText := s1, taskBarText := s2,
        webviewMessages := wm,
        storedTimers := tms.map serializeTimer, storedTasks := st.tasks } ∧
      tms.Perm st.timers := by
  obtain ⟨tms, s1, s2, h1, hp⟩ := updateStatusBar_spec now st
  obtain ⟨wm, h2⟩ := sendDataToWebview_spec now (updateStatusBar now st)
  refine ⟨tms, s1, s2, wm, ?_, hp⟩
  unfold updateViews
  dsimp only
  rw [h1] at h2
  rw [h1, h2]

theorem persistedMatches_updateViews (now : Int) (st : St) :
    persistedMatches (updateViews now st) := by
  obtain ⟨tms, s1, s2, wm, h, -⟩ := updateViews_spec now st
  rw [persistedMatches, h]
  exact ⟨rfl, rfl⟩

theorem updateViews_frame (now : Int) (st : St) :
    (updateViews now st).registered = st.registered ∧
    (updateViews now st).nextHandle = st.nextHandle ∧
    (updateViews now st).infoMessages = st.infoMessages ∧
    (updateViews now st).errorMessages = st.errorMessages ∧
    (updateViews now st).notifications = st.notifications ∧
    (updateViews now st).tasks = st.tasks := by
  obtain ⟨tms, s1, s2, wm, h, -⟩ := updateViews_spec now st
  rw [h]
  exact ⟨rfl, rfl, rfl, rfl, rfl, rfl⟩

theorem updateStatusBar_frame (now : Int) (st : St) :
    (updateStatusBar now st).registered = st.registered ∧
    (updateStatusBar now st).nextHandle = st.nextHandle ∧
    (updateStatusBar now st).storedTimers = st.storedTimers ∧
    (updateStatusBar now st).storedTasks = st.storedTasks ∧
    (updateStatusBar now st).tasks = st.tasks ∧
    (updateStatusBar now st).notifications = st.notifications ∧
    (updateStatusBar now st).infoMessages = st.infoMessages ∧
    (updateStatusBar now st).errorMessages = st.errorMessages := by
  obtain ⟨tms, s1, s2, h, -⟩ := updateStatusBar_spec now st
  rw [h]
  exact ⟨rfl, rfl, rfl, rfl, rfl, rfl, rfl, rfl⟩

theorem updateViews_registered (now : Int) (st : St) :
    (updateViews now st).registered = st.registered :=
  (updateViews_frame now st).1

theorem updateViews_nextHandle (now : Int) (st : St) :
    (updateViews now st).nextHandle = st.nextHandle :=
  (updateViews_frame now st).2.1

theorem updateStatusBar_registered (now : Int) (st : St) :
    (updateStatusBar now st).registered = st.registered :=
  (updateStatusBar_frame now st).1

theorem updateStatusBar_storedTimers (now : Int) (st : St) :
    (updateStatusBar now st).storedTimers = st.storedTimers :=
  (updateStatusBar_frame now st).2.2.1

theorem updateStatusBar_storedTasks (now : Int) (st : St) :
    (updateStatusBar now st).storedTasks = st.storedTasks :=
  (updateStatusBar_frame now st).2.2.2.1

theorem restoreOne_expired (now : Int) (e : StoredTimer) (st : St)
    (h : e.endTime - now ≤ 0) :
    restoreOne now e st =
      { st with infoMessages := st.infoMessages ++ [e.label ++ " timer has completed."] } := by
  unfold restoreOne
  dsimp only
  rw [if_pos h]

theorem restoreOne_live (now : Int) (e : StoredTimer) (st : St)
    (h : ¬ e.endTime - now ≤ 0) :
    restoreOne now e st =
      { st with
        registered := st.registered ++
          [{ handle := st.nextHandle, callback := Callback.restored e.endTime }],
        nextHandle := st.nextHandle + 1,
        timers := st.timers ++
          [{ label := e.label, timerInterval := st.nextHandle, endTime := e.endTime }] } := by
  unfold restoreOne
  dsimp only
  rw [if_neg h]

theorem restoreLoop_serialize (now : Int) :
    ∀ (entries : List StoredTimer) (st : St),
      ((restoreLoop now entries st).timers).map serializeTimer =
        st.timers.map serializeTimer ++ entries.filter (fun e => decide (now < e.endTime)) := by
  intro entries
  induction entries with
  | nil =>
    intro st
    simp [restoreLoop]
  | cons e rest ih =>
    intro st
    rw [restoreLoop]
    by_cases hexp : e.endTime - now ≤ 0
    · have hd : (decide (now < e.endTime)) = false := by
        simp only [decide_eq_false_iff_not, not_lt]
        omega
      rw [restoreOne_expired now e st hexp, ih]
      simp [List.filter_cons, hd]
    · have hd : (decide (now < e.endTime)) = true := by
        simp only [decide_eq_true_eq]
        omega
      rw [restoreOne_live now e st hexp, ih]
      simp [List.filter_cons, hd, serializeTimer]

theorem restoreLoop_frame (now : Int) :
    ∀ (entries : List StoredTimer) (st : St),
      ∃ tms reg nh im, restoreLoop now entries st =
        { st with timers := tms, registered := reg, nextHandle := nh, infoMessages := im } := by
  intro entries
  induction entries with
  | nil =>
    intro st
    exact ⟨st.timers, st.registered, st.nextHandle, st.infoMessages, rfl⟩
  | cons e rest ih =>
    intro st
    rw [restoreLoop]
    obtain ⟨tms, reg, nh, im, hih⟩ := ih (restoreOne now e st)
    by_cases hexp : e.endTime - now ≤ 0
    · rw [restoreOne_expired now e st hexp] at hih
      rw [restoreOne_expired now e st hexp, hih]
      exact ⟨tms, reg, nh, im, rfl⟩
    · rw [restoreOne_live now e st hexp] at hih
      rw [restoreOne_live now e st hexp, hih]
      exact ⟨tms, reg, nh, im, rfl⟩

theorem restoreLoop_mem_mono (now : Int) :
    ∀ (entries : List StoredTimer) (st : St),
      (∀ t : Timer, t ∈ st.timers → t ∈ (restoreLoop now entries st).timers) ∧
      (∀ iv : Interval, iv ∈ st.registered → iv ∈ (restoreLoop now entries st).registered) := by
  intro entries
  induction entries with
  | nil =>
    intro st
    exact ⟨fun t ht => ht, fun iv hiv => hiv⟩
  | cons e rest ih =>
    intro st
    rw [restoreLoop]
    obtain ⟨iht, ihr⟩ := ih (restoreOne now e st)
    by_cases hexp : e.endTime - now ≤ 0
    · rw [restoreOne_expired now e st hexp] at iht ihr ⊢
      exact ⟨fun t ht => iht t ht, fun iv hiv => ihr iv hiv⟩
    · rw [restoreOne_live now e st hexp] at iht ihr ⊢
      refine ⟨fun t ht => iht t ?_, fun iv hiv => ihr iv ?_⟩
      · exact List.mem_append_left _ ht
      · exact List.mem_append_left _ hiv

theorem restoreLoop_mem (now : Int) :
    ∀ (entries : List StoredTimer) (st : St) (e : StoredTimer),
      e ∈ entries → now < e.endTime →
      ∃ h, (⟨h, Callback.restored e.endTime⟩ : Interval) ∈ (restoreLoop now entries st).registered ∧
        (⟨e.label, h, e.endTime⟩ : Timer) ∈ (restoreLoop now entries st).timers := by
  intro entries
  induction entries with
  | nil =>
    intro st e he
    exact absurd he (List.not_mem_nil e)
  | cons e0 rest ih =>
    intro st e he hlive
    rw [restoreLoop]
    rcases List.mem_cons.1 he with heq | hmem
    · subst heq
      have hexp : ¬ e.endTime - now ≤ 0 := by omega
      obtain ⟨iht, ihr⟩ := restoreLoop_mem_mono now rest (restoreOne now e st)
      rw [restoreOne_live now e st hexp] at iht ihr ⊢
      refine ⟨st.nextHandle, ?_, ?_⟩
      · exact ihr _ (List.mem_append_right _ (List.mem_singleton_self _))
      · exact iht _ (List.mem_append_right _ (List.mem_singleton_self _))
    · exact ih (restoreOne now e0 st) e hmem hlive

theorem restoreLoop_handles (now : Int) :
    ∀ (entries : List StoredTimer) (st : St),
      st.nextHandle ≤ (restoreLoop now entries st).nextHandle ∧
      (∀ h, h ∈ regHandles (restoreLoop now entries st) →
        h ∈ regHandles st ∨ st.nextHandle ≤ h) := by
  intro entries
  induction entries with
  | nil =>
    intro st
    exact ⟨Nat.le_refl _, fun h hh => Or.inl hh⟩
  | cons e rest ih =>
    intro st
    rw [restoreLoop]
    obtain ⟨ihn, ihh⟩ := ih (restoreOne now e st)
    by_cases hexp : e.endTime - now ≤ 0
    · rw [restoreOne_expired now e st hexp] at ihn ihh ⊢
      exact ⟨ihn, ihh⟩
    · rw [restoreOne_live now e st hexp] at ihn ihh ⊢
      dsimp only at ihn ihh
      refine ⟨by omega, fun h hh => ?_⟩
      rcases ihh h hh with hin | hge
      · rw [regHandles] at hin
        dsimp only at hin
        rw [List.map_append] at hin
        rcases List.mem_append.1 hin with hold | hnew
        · exact Or.inl hold
        · simp at hnew
          exact Or.inr (by omega)
      · exact Or.inr (by omega)

theorem handles_stay {s s' : St} (hr : s'.registered = s.registered)
    (hn : s'.nextHandle = s.nextHandle) :
    s.nextHandle ≤ s'.nextHandle ∧
    ∀ h, h ∈ regHandles s' → h ∈ regHandles s ∨ s.nextHandle ≤ h := by
  rw [hn]
  refine ⟨Nat.le_refl _, fun h hh => Or.inl ?_⟩
  rw [regHandles, hr] at hh
  rw [regHandles]
  exact hh

theorem handles_shrink {s s' : St} (hn : s'.nextHandle = s.nextHandle)
    (hsub : ∀ h, h ∈ regHandles s' → h ∈ regHandles s) :
    s.nextHandle ≤ s'.nextHandle ∧
    ∀ h, h ∈ regHandles s' → h ∈ regHandles s ∨ s.nextHandle ≤ h := by
  rw [hn]
  exact ⟨Nat.le_refl _, fun h hh => Or.inl (hsub h hh)⟩

theorem addTask_handles (now : Int) (task : String) (st : St) :
    (addTask now task st).registered = st.registered ∧
    (addTask now task st).nextHandle = st.nextHandle := by
  unfold addTask
  split
  · exact ⟨rfl, rfl⟩
  · obtain ⟨hr, hn, -⟩ := updateViews_frame now _
    exact ⟨hr, hn⟩

theorem editTask_handles (now index : Int) (description : String) (st : St) :
    (editTask now index description st).registered = st.registered ∧
    (editTask now index description st).nextHandle = st.nextHandle := by
  unfold editTask
  split
  · obtain ⟨hr, hn, -⟩ := updateViews_frame now _
    exact ⟨hr, hn⟩
  · exact ⟨rfl, rfl⟩

theorem toggleTask_handles (now index : Int) (st : St) :
    (toggleTask now index st).registered = st.registered ∧
    (toggleTask now index st).nextHandle = st.nextHandle := by
  unfold toggleTask
  split
  · obtain ⟨hr, hn, -⟩ := updateViews_frame now _
    exact ⟨hr, hn⟩
  · exact ⟨rfl, rfl⟩

theorem deleteTask_handles (now index : Int) (st : St) :
    (deleteTask now index st).registered = st.registered ∧
    (deleteTask now index st).nextHandle = st.nextHandle := by
  unfold deleteTask
  split
  · obtain ⟨hr, hn, -⟩ := updateViews_frame now _
    exact ⟨hr, hn⟩
  · exact ⟨rfl, rfl⟩

theorem startTimer_handles (now : Int) (label : String) (minutes : Int) (st : St) :
    ((startTimer now label minutes st).registered = st.registered ∧
      (startTimer now label minutes st).nextHandle = st.nextHandle) ∨
    ((startTimer now label minutes st).registered = st.registered ++
        [{ handle := st.nextHandle,
           callback := Callback.fresh (dedupLabel (st.timers.length + 1) st.timers label)
             (now + minutes * 60 * 1000) }] ∧
      (startTimer now label minutes st).nextHandle = st.nextHandle + 1) := by
  unfold startTimer
  dsimp only
  split
  · exact Or.inl ⟨rfl, rfl⟩
  · split
    · exact Or.inl ⟨rfl, rfl⟩
    · obtain ⟨hr, hn, -⟩ := updateViews_frame now _
      exact Or.inr ⟨hr, hn⟩

theorem stopTimer_handles (now : Int) (label : String) (st : St) :
    (stopTimer now label st).nextHandle = st.nextHandle ∧
    ∀ h, h ∈ regHandles (stopTimer now label st) → h ∈ regHandles st := by
  unfold stopTimer
  split
  · next timer heq =>
    obtain ⟨hr, hn, -⟩ := updateViews_frame now _
    refine ⟨hn, fun h hh => ?_⟩
    rw [regHandles, hr] at hh
    dsimp only at hh
    rw [deregister] at hh
    dsimp only at hh
    rcases List.mem_map.1 hh with ⟨iv, hiv, rfl⟩
    rw [regHandles]
    exact List.mem_map_of_mem _ (List.mem_of_mem_filter hiv)
  · exact ⟨rfl, fun h hh => hh⟩

theorem clearTimers_handles (now : Int) (st : St) :
    (clearTimers now st).nextHandle = st.nextHandle ∧
    ∀ h, h ∈ regHandles (clearTimers now st) → h ∈ regHandles st := by
  unfold clearTimers
  dsimp only
  obtain ⟨hr, hn, -⟩ := updateViews_frame now _
  refine ⟨hn, fun h hh => ?_⟩
  rw [regHandles, hr] at hh
  dsimp only at hh
  rcases List.mem_map.1 hh with ⟨iv, hiv, rfl⟩
  rw [regHandles]
  exact List.mem_map_of_mem _ (List.mem_of_mem_filter hiv)

theorem tickFresh_handles (now : Int) (h0 : Nat) (label : String) (endTime : Int) (st : St) :
    (tickFresh now h0 label endTime st).nextHandle = st.nextHandle ∧
    ∀ h, h ∈ regHandles (tickFresh now h0 label endTime st) → h ∈ regHandles st := by
  unfold tickFresh
  dsimp only
  split
  · obtain ⟨hr, hn, -⟩ := updateStatusBar_frame now _
    refine ⟨hn, fun h hh => ?_⟩
    rw [regHandles, hr] at hh
    dsimp only at hh
    rw [deregister] at hh
    dsimp only at hh
    rcases List.mem_map.1 hh with ⟨iv, hiv, rfl⟩
    rw [regHandles]
    exact List.mem_map_of_mem _ (List.mem_of_mem_filter hiv)
  · obtain ⟨hr, hn, -⟩ := updateStatusBar_frame now st
    refine ⟨hn, fun h hh => ?_⟩
    rw [regHandles, hr] at hh
    rw [regHandles]
    exact hh

theorem tickRestored_handles (now : Int) (h0 : Nat) (endTime : Int) (st : St) :
    (tickRestored now h0 endTime st).nextHandle = st.nextHandle ∧
    ∀ h, h ∈ regHandles (tickRestored now h0 endTime st) → h ∈ regHandles st := by
  unfold tickRestored
  split
  · rw [deregister]
    refine ⟨rfl, fun h hh => ?_⟩
    rw [regHandles] at hh
    dsimp only at hh
    rcases List.mem_map.1 hh with ⟨iv, hiv, rfl⟩
    rw [regHandles]
    exact List.mem_map_of_mem _ (List.mem_of_mem_filter hiv)
  · exact ⟨rfl, fun h hh => hh⟩

theorem runCallback_handles (now : Int) (iv : Interval) (st : St) :
    (runCallback now iv st).nextHandle = st.nextHandle ∧
    ∀ h, h ∈ regHandles (runCallback now iv st) → h ∈ regHandles st := by
  unfold runCallback
  cases iv.callback with
  | fresh label endTime => exact tickFresh_handles now iv.handle label endTime st
  | restored endTime => exact tickRestored_handles now iv.handle endTime st

theorem restoreTimers_handles (now : Int) (st : St) :
    st.nextHandle ≤ (restoreTimers now st).nextHandle ∧
    ∀ h, h ∈ regHandles (restoreTimers now st) → h ∈ regHandles st ∨ st.nextHandle ≤ h := by
  unfold restoreTimers
  obtain ⟨hn, hh⟩ := restoreLoop_handles now st.storedTimers { st with timers := [] }
  obtain ⟨hr, hnn, -⟩ :=
    updateStatusBar_frame now (restoreLoop now st.storedTimers { st with timers := [] })
  constructor
  · rw [hnn]
    exact hn
  · intro h hmem
    rw [regHandles, hr] at hmem
    rcases hh h (by rw [regHandles]; exact hmem) with hin | hge
    · left
      rw [regHandles] at hin
      rw [regHandles]
      exact hin
    · exact Or.inr hge

theorem sendDataToWebview_handles (now : Int) (st : St) :
    (sendDataToWebview now st).registered = st.registered ∧
    (sendDataToWebview now st).nextHandle = st.nextHandle := by
  obtain ⟨wm, h⟩ := sendDataToWebview_spec now st
  rw [h]
  exact ⟨rfl, rfl⟩

theorem step_handles {s s' : St} (hstep : Step s s') :
    s.nextHandle ≤ s'.nextHandle ∧
    ∀ h, h ∈ regHandles s' → h ∈ regHandles s ∨ s.nextHandle ≤ h := by
  cases hstep with
  | addTaskS now task =>
    exact handles_stay (addTask_handles now task s).1 (addTask_handles now task s).2
  | editTaskS now index description =>
    exact handles_stay (editTask_handles now index description s).1
      (editTask_handles now index description s).2
  | toggleTaskS now index =>
    exact handles_stay (toggleTask_handles now index s).1 (toggleTask_handles now index s).2
  | deleteTaskS now index =>
    exact handles_stay (deleteTask_handles now index s).1 (deleteTask_handles now index s).2
  | startTimerS now label minutes =>
    rcases startTimer_handles now label minutes s with ⟨hr, hn⟩ | ⟨hr, hn⟩
    · exact handles_stay hr hn
    · rw [hn]
      refine ⟨Nat.le_succ _, fun h hh => ?_⟩
      rw [regHandles, hr, List.map_append] at hh
      rcases List.mem_append.1 hh with hold | hnew
      · left
        rw [regHandles]
        exact hold
      · right
        simp at hnew
        omega
  | stopTimerS now label =>
    exact handles_shrink (stopTimer_handles now label s).1 (stopTimer_handles now label s).2
  | clearTimersS now =>
    exact handles_shrink (clearTimers_handles now s).1 (clearTimers_handles now s).2
  | tickS now iv hiv =>
    exact handles_shrink (runCallback_handles now iv s).1 (runCallback_handles now iv s).2
  | restoreS now => exact restoreTimers_handles now s
  | restoreTasksS => exact handles_stay rfl rfl
  | attachS => exact handles_stay rfl rfl
  | getDataS now =>
    exact handles_stay (sendDataToWebview_handles now s).1 (sendDataToWebview_handles now s).2

theorem steps_no_resurrect {s s' : St} (hsteps : Steps s s') :
    ∀ h, h < s.nextHandle → h ∉ regHandles s → h < s'.nextHandle ∧ h ∉ regHandles s' := by
  rw [Steps] at hsteps
  induction hsteps with
  | refl => exact fun h h1 h2 => ⟨h1, h2⟩
  | tail hab hbc ih =>
    intro h h1 h2
    obtain ⟨hlt, hnot⟩ := ih h h1 h2
    obtain ⟨hmono, hreg⟩ := step_handles hbc
    refine ⟨Nat.lt_of_lt_of_le hlt hmono, fun hmem => ?_⟩
    rcases hreg h hmem with hin | hge
    · exact hnot hin
    · omega

theorem serialize_labels (tms : List Timer) :
    (tms.map serializeTimer).map (fun e => e.label) = tms.map (fun t => t.label) := by
  rw [List.map_map]
  rfl

theorem LabelsInv_updateViews (now : Int) (st : St)
    (h : (st.timers.map (fun t => t.label)).Nodup) :
    LabelsInv (updateViews now st) := by
  obtain ⟨tms, s1, s2, wm, heq, hp⟩ := updateViews_spec now st
  have hperm : (tms.map (fun t => t.label)).Perm (st.timers.map (fun t => t.label)) :=
    hp.map _
  have htms : (tms.map (fun t => t.label)).Nodup := hperm.nodup_iff.2 h
  rw [LabelsInv, heq]
  refine ⟨htms, ?_⟩
  show ((tms.map serializeTimer).map (fun e => e.label)).Nodup
  rw [serialize_labels]
  exact htms

theorem not_mem_labels_of_hasLabel_false {timers : List Timer} {s : String}
    (h : hasLabel timers s = false) : s ∉ timers.map (fun t => t.label) := by
  intro hm
  rw [← hasLabel_iff] at hm
  rw [h] at hm
  exact absurd hm (by decide)

theorem labels_sublist_nodup {l1 l2 : List Timer} (h : l1.Sublist l2)
    (hnd : (l2.map (fun t => t.label)).Nodup) : (l1.map (fun t => t.label)).Nodup :=
  List.Nodup.sublist (List.Sublist.map _ h) hnd

theorem tickRestored_unchanged (now : Int) (h0 : Nat) (endTime : Int) (st : St) :
    (tickRestored now h0 endTime st).timers = st.timers ∧
    (tickRestored now h0 endTime st).storedTimers = st.storedTimers ∧
    (tickRestored now h0 endTime st).storedTasks = st.storedTasks := by
  unfold tickRestored deregister
  split
  · exact ⟨rfl, rfl, rfl⟩
  · exact ⟨rfl, rfl, rfl⟩

theorem tickFresh_labels (now : Int) (h0 : Nat) (label : String) (endTime : Int) (st : St)
    (hinv : LabelsInv st) : LabelsInv (tickFresh now h0 label endTime st) := by
  obtain ⟨hta, hsa⟩ := hinv
  unfold tickFresh
  dsimp only
  split
  · obtain ⟨tms, s1, s2, heq, hp⟩ := updateStatusBar_spec now _
    rw [LabelsInv, heq]
    constructor
    · refine (List.Perm.nodup_iff (hp.map _)).2 ?_
      show ((((deregister h0 st).timers).filter
        (fun t => t.label != label)).map (fun t => t.label)).Nodup
      exact labels_sublist_nodup (List.filter_sublist _) hta
    · exact hsa
  · obtain ⟨tms, s1, s2, heq, hp⟩ := updateStatusBar_spec now st
    rw [LabelsInv, heq]
    exact ⟨(List.Perm.nodup_iff (hp.map _)).2 hta, hsa⟩

theorem runCallback_labels (now : Int) (iv : Interval) (st : St)
    (hinv : LabelsInv st) : LabelsInv (runCallback now iv st) := by
  unfold runCallback
  cases iv.callback with
  | fresh label endTime => exact tickFresh_labels now iv.handle label endTime st hinv
  | restored endTime =>
    rw [LabelsInv, (tickRestored_unchanged now iv.handle endTime st).1,
      (tickRestored_unchanged now iv.handle endTime st).2.1]
    exact hinv

theorem step_labels {s s' : St} (hstep : Step s s') (hinv : LabelsInv s) : LabelsInv s' := by
  obtain ⟨hta, hsa⟩ := hinv
  cases hstep with
  | addTaskS now task =>
    unfold addTask
    split
    · exact ⟨hta, hsa⟩
    · exact LabelsInv_updateViews now _ hta
  | editTaskS now index description =>
    unfold editTask
    split
    · exact LabelsInv_updateViews now _ hta
    · exact ⟨hta, hsa⟩
  | toggleTaskS now index =>
    unfold toggleTask
    split
    · exact LabelsInv_updateViews now _ hta
    · exact ⟨hta, hsa⟩
  | deleteTaskS now index =>
    unfold deleteTask
    split
    · exact LabelsInv_updateViews now _ hta
    · exact ⟨hta, hsa⟩
  | startTimerS now label minutes =>
    unfold startTimer
    dsimp only
    split
    · exact ⟨hta, hsa⟩
    · split
      · exact ⟨hta, hsa⟩
      · refine LabelsInv_updateViews now _ ?_
        show ((s.timers ++
          [({ label := dedupLabel (s.timers.length + 1) s.timers label,
              timerInterval := s.nextHandle,
              endTime := now + minutes * 60 * 1000 } : Timer)]).map
            (fun t => t.label)).Nodup
        rw [List.map_append]
        rw [List.nodup_append]
        refine ⟨hta, List.nodup_singleton _, ?_⟩
        intro x hx hx2
        simp only [List.map_cons, List.map_nil, List.mem_singleton] at hx2
        subst hx2
        exact not_mem_labels_of_hasLabel_false (dedupLabel_fresh s.timers label) hx
  | stopTimerS now label =>
    unfold stopTimer
    split
    · next timer heq =>
      refine LabelsInv_updateViews now _ ?_
      show ((((deregister timer.timerInterval s).timers).filter
        (fun t => t.label != label)).map (fun t => t.label)).Nodup
      exact labels_sublist_nodup (List.filter_sublist _) hta
    · exact ⟨hta, hsa⟩
  | clearTimersS now =>
    unfold clearTimers
    dsimp only
    refine LabelsInv_updateViews now _ ?_
    exact List.nodup_nil
  | tickS now iv hiv =>
    exact runCallback_labels now iv s ⟨hta, hsa⟩
  | restoreS now =>
    unfold restoreTimers
    obtain ⟨tms, s1, s2, heq, hp⟩ :=
      updateStatusBar_spec now (restoreLoop now s.storedTimers { s with timers := [] })
    rw [LabelsInv, heq]
    obtain ⟨ltms, lreg, lnh, lim, hloop⟩ := restoreLoop_frame now s.storedTimers { s with timers := [] }
    constructor
    · refine (List.Perm.nodup_iff (hp.map _)).2 ?_
      have hser := restoreLoop_serialize now s.storedTimers { s with timers := [] }
      have hlabels := congrArg (List.map (fun e : StoredTimer => e.label)) hser
      rw [serialize_labels] at hlabels
      dsimp only at hlabels
      rw [List.map_nil, List.nil_append] at hlabels
      rw [hlabels]
      exact List.Nodup.sublist (List.Sublist.map _ (List.filter_sublist _)) hsa
    · rw [hloop]
      exact hsa
  | restoreTasksS => exact ⟨hta, hsa⟩
  | attachS => exact ⟨hta, hsa⟩
  | getDataS now =>
    obtain ⟨wm, heq⟩ := sendDataToWebview_spec now s
    rw [LabelsInv, heq]
    exact ⟨hta, hsa⟩

theorem steps_labels {s s' : St} (hsteps : Steps s s') (hinv : LabelsInv s) : LabelsInv s' := by
  rw [Steps] at hsteps
  induction hsteps with
  | refl => exact hinv
  | tail hab hbc ih => exact step_labels hbc ih

theorem reachable_labels {st : St} (h : Reachable st) : LabelsInv st :=
  steps_labels h ⟨List.nodup_nil, List.nodup_nil⟩

theorem filter_ne_length {timers : List Timer} {l : String}
    (hnd : (timers.map (fun t => t.label)).Nodup)
    (hmem : l ∈ timers.map (fun t => t.label)) :
    (timers.filter (fun t => t.label != l)).length + 1 = timers.length := by
  induction timers with
  | nil => simp at hmem
  | cons t rest ih =>
    simp only [List.map_cons, List.nodup_cons] at hnd
    obtain ⟨hnotin, hndrest⟩ := hnd
    rw [List.filter_cons]
    rcases List.mem_cons.1 hmem with heq | hmemrest
    · have heq' : l = t.label := heq
      have hb : (t.label != l) = false := by
        rw [heq']
        simp
      rw [if_neg (by rw [hb]; decide)]
      have hall : rest.filter (fun t' => t'.label != l) = rest := by
        refine List.filter_eq_self.2 ?_
        intro a ha
        have hane : a.label ≠ l := by
          intro hla
          refine hnotin ?_
          rw [← heq', ← hla]
          exact List.mem_map_of_mem _ ha
        simp [hane]
      rw [hall]
      simp
    · have hne : t.label ≠ l := by
        intro hla
        refine hnotin ?_
        rw [hla]
        exact hmemrest
      rw [if_pos (by simp [hne])]
      have := ih hndrest hmemrest
      simp only [List.length_cons]
      omega

theorem leEnd_trans (a b c : Timer) (hab : leEnd a b = true) (hbc : leEnd b c = true) :
    leEnd a c = true := by
  rw [leEnd, decide_eq_true_eq] at hab hbc ⊢
  omega

theorem leEnd_total (a b : Timer) : (leEnd a b || leEnd b a) = true := by
  rw [leEnd, leEnd]
  rcases Int.le_total a.endTime b.endTime with h | h
  · simp [h]
  · simp [h]

theorem mergeSort_sorted (l : List Timer) :
    (l.mergeSort leEnd).Pairwise (fun a b => a.endTime ≤ b.endTime) := by
  have hs := List.sorted_mergeSort leEnd_trans leEnd_total l
  refine hs.imp ?_
  intro a b h
  rw [leEnd, decide_eq_true_eq] at h
  exact h

theorem mergeSort_sorted_eq {l : List Timer}
    (h : l.Pairwise (fun a b => a.endTime ≤ b.endTime)) : l.mergeSort leEnd = l := by
  refine List.mergeSort_of_sorted (h.imp ?_)
  intro a b hab
  rw [leEnd, decide_eq_true_eq]
  exact hab

theorem mergeSort_head_min {l : List Timer} {t : Timer} {rest : List Timer}
    (h : l.mergeSort leEnd = t :: rest) :
    t ∈ l ∧ ∀ u ∈ l, t.endTime ≤ u.endTime := by
  have hperm : (t :: rest).Perm l := h ▸ List.mergeSort_perm l leEnd
  have hmem : t ∈ l := hperm.mem_iff.1 (List.mem_cons_self t rest)
  refine ⟨hmem, fun u hu => ?_⟩
  have hu' : u ∈ t :: rest := hperm.mem_iff.2 hu
  rcases List.mem_cons.1 hu' with rfl | hur
  · exact le_refl _
  · have hp := mergeSort_sorted l
    rw [h] at hp
    exact List.rel_of_pairwise_cons hp hur

theorem mem_data_append_left {c : Char} {a b : String} (h : c ∈ a.data) :
    c ∈ (a ++ b).data := by
  rw [String.data_append]
  exact List.mem_append_left _ h

theorem mem_data_append_right {c : Char} {a b : String} (h : c ∈ b.data) :
    c ∈ (a ++ b).data := by
  rw [String.data_append]
  exact List.mem_append_right _ h

theorem timerBar_format_ne (n label m p : String) :
    n ++ " active timer(s) 🕒 " ++ label ++ ": " ++ m ++ ":" ++ p ≠ "No active timers" := by
  intro h
  have hc : '(' ∈ (n ++ " active timer(s) 🕒 " ++ label ++ ": " ++ m ++ ":" ++ p).data := by
    refine mem_data_append_left (mem_data_append_left (mem_data_append_left
      (mem_data_append_left (mem_data_append_left ?_))))
    exact mem_data_append_right (by decide)
  rw [h] at hc
  exact absurd hc (by decide)

theorem updateTimerBar_timers_eq (now : Int) (st : St) (h : st.timers ≠ []) :
    (updateTimerBar now st).timers = st.timers.mergeSort leEnd := by
  have h0 : ¬ st.timers.length = 0 := fun hh => h (List.length_eq_zero.1 hh)
  unfold updateTimerBar
  dsimp only
  rw [if_neg h0]
  split
  · next heq =>
    rw [heq]
  · next t rest heq =>
    rw [heq]

theorem updateTimerBar_text_cons (now : Int) (st : St) (h : st.timers ≠ []) :
    ∃ t rest, st.timers.mergeSort leEnd = t :: rest ∧
      (updateTimerBar now st).timerBarText =
        toString st.timers.length ++ " active timer(s) 🕒 " ++ t.label ++ ": " ++
        toString (Int.fdiv (t.endTime - now) (60 * 1000)) ++ ":" ++
        padStart (toString (Int.fdiv (Int.tmod (t.endTime - now) (60 * 1000)) 1000)) 2 '0' := by
  have h0 : ¬ st.timers.length = 0 := fun hh => h (List.length_eq_zero.1 hh)
  unfold updateTimerBar
  dsimp only
  rw [if_neg h0]
  split
  · next heq =>
    have : st.timers = [] := List.nil_perm.1 (heq ▸ List.mergeSort_perm st.timers leEnd)
    exact absurd this h
  · next t rest heq =>
    exact ⟨t, rest, heq, rfl⟩

theorem updateStatusBar_text (now : Int) (st : St) :
    (updateStatusBar now st).timerBarText = (updateTimerBar now st).timerBarText := by
  unfold updateStatusBar
  obtain ⟨s2, hT⟩ := updateTaskBar_spec (updateTimerBar now st)
  rw [hT]

theorem updateStatusBar_timers_eq (now : Int) (st : St) (h : st.timers ≠ []) :
    (updateStatusBar now st).timers = st.timers.mergeSort leEnd := by
  unfold updateStatusBar
  obtain ⟨s2, hT⟩ := updateTaskBar_spec (updateTimerBar now st)
  rw [hT]
  exact updateTimerBar_timers_eq now st h

theorem updateViews_timers (now : Int) (st : St) :
    (updateViews now st).timers = (updateStatusBar now st).timers := by
  unfold updateViews
  dsimp only
  obtain ⟨wm, h2⟩ := sendDataToWebview_spec now (updateStatusBar now st)
  rw [h2]

theorem updateViews_webview (now : Int) (st : St) (h : st.webviewAttached = true) :
    (updateViews now st).webviewMessages =
      st.webviewMessages ++
        [(st.tasks, (updateStatusBar now st).timers.map (webviewTimerEntry now))] := by
  obtain ⟨tms, s1, s2, hS, hp⟩ := updateStatusBar_spec now st
  unfold updateViews sendDataToWebview
  dsimp only
  rw [hS]
  dsimp only
  rw [if_pos h]

theorem tickFresh_stored (now : Int) (h0 : Nat) (label : String) (endTime : Int) (st : St) :
    (tickFresh now h0 label endTime st).storedTimers = st.storedTimers ∧
    (tickFresh now h0 label endTime st).storedTasks = st.storedTasks := by
  unfold tickFresh
  dsimp only
  split
  · rw [updateStatusBar_storedTimers, updateStatusBar_storedTasks]
    exact ⟨rfl, rfl⟩
  · rw [updateStatusBar_storedTimers, updateStatusBar_storedTasks]
    exact ⟨rfl, rfl⟩

theorem runCallback_stored (now : Int) (iv : Interval) (st : St) :
    (runCallback now iv st).storedTimers = st.storedTimers ∧
    (runCallback now iv st).storedTasks = st.storedTasks := by
  unfold runCallback
  cases iv.callback with
  | fresh label endTime => exact tickFresh_stored now iv.handle label endTime st
  | restored endTime =>
    exact ⟨(tickRestored_unchanged now iv.handle endTime st).2.1,
      (tickRestored_unchanged now iv.handle endTime st).2.2⟩

/-- C4: for every Create(label, minutes) with a nonempty label and valid
(positive) minutes, the stored timer's label is the requested label with the
smallest number of appended `'*'` markers that makes it distinct from every
currently active timer's label, and that timer (with endTime = now +
minutes*60000) is in the active list afterwards; in particular two
successive creations with label "Build" starting from the empty state yield
timers labelled "Build" and "Build*". -/
theorem startTimer_dedups_label :
    (∀ (st : St) (now minutes : Int) (label : String), label ≠ "" → 0 < minutes →
      ∃ k, dedupLabel (st.timers.length + 1) st.timers label = label ++ stars k ∧
        (∀ j, j < k → hasLabel st.timers (label ++ stars j) = true) ∧
        hasLabel st.timers (label ++ stars k) = false ∧
        ({ label := label ++ stars k, timerInterval := st.nextHandle,
           endTime := now + minutes * 60 * 1000 } : Timer) ∈
          (startTimer now label minutes st).timers) ∧
    ((startTimer 0 "Build" 5 (startTimer 0 "Build" 5 initSt)).timers.map (fun t => t.label))
      = ["Build", "Build*"] := by
  constructor
  · intro st now minutes label hlab hmin
    obtain ⟨k, hk, hcoll, hfree⟩ := dedupLabel_spec st.timers label
    refine ⟨k, hk, hcoll, hfree, ?_⟩
    unfold startTimer
    dsimp only
    rw [if_neg hlab, if_neg (by omega : ¬ minutes ≤ 0)]
    rw [updateViews_timers]
    obtain ⟨tms, s1, s2, hS, hp⟩ := updateStatusBar_spec now _
    rw [hS]
    dsimp only
    rw [← hk]
    exact hp.mem_iff.2 (List.mem_append_right _ (List.mem_singleton_self _))
  · decide

theorem startTimer_dedups_label_witness :
    ((startTimer 0 "Build" 5 (startTimer 0 "Build" 5 initSt)).timers.map (fun t => t.label))
      = ["Build", "Build*"] :=
  startTimer_dedups_label.2

/-- C5: stopping a label that matches no active timer leaves the whole state
unchanged except for appending one error message naming the label; in
particular the timer list, the task list and both persisted entries are
untouched and no exception propagates. -/
theorem stopTimer_unknown_label_noop (st : St) (now : Int) (label : String)
    (h : ∀ t ∈ st.timers, t.label ≠ label) :
    stopTimer now label st =
      { st with errorMessages :=
          st.errorMessages ++ ["No timer found with label \"" ++ label ++ "\"."] } := by
  unfold stopTimer
  have hfind : st.timers.find? (fun timer => timer.label == label) = none := by
    rw [List.find?_eq_none]
    intro t ht
    simp only [beq_iff_eq]
    exact h t ht
  rw [hfind]

theorem stopTimer_unknown_label_noop_witness :
    stopTimer 0 "X" exTimerSt =
      { exTimerSt with errorMessages :=
          exTimerSt.errorMessages ++ ["No timer found with label \"X\"."] } :=
  stopTimer_unknown_label_noop exTimerSt 0 "X" (by decide)

/-- C7: the timer status-bar text is the fixed string "No active timers"
exactly when the timer list is empty; otherwise it is the count of active
timers followed by the label of a timer with the smallest endTime and that
timer's remaining time rendered minutes:seconds, seconds zero-padded to two
digits. -/
theorem statusBar_summary (now : Int) (st : St) :
    ((updateStatusBar now st).timerBarText = "No active timers" ↔ st.timers = []) ∧
    (st.timers ≠ [] →
      ∃ t, t ∈ st.timers ∧ (∀ u ∈ st.timers, t.endTime ≤ u.endTime) ∧
        (updateStatusBar now st).timerBarText =
          toString st.timers.length ++ " active timer(s) 🕒 " ++ t.label ++ ": " ++
          toString (Int.fdiv (t.endTime - now) (60 * 1000)) ++ ":" ++
          padStart (toString (Int.fdiv (Int.tmod (t.endTime - now) (60 * 1000)) 1000)) 2 '0') := by
  have hmain : st.timers ≠ [] →
      ∃ t, t ∈ st.timers ∧ (∀ u ∈ st.timers, t.endTime ≤ u.endTime) ∧
        (updateStatusBar now st).timerBarText =
          toString st.timers.length ++ " active timer(s) 🕒 " ++ t.label ++ ": " ++
          toString (Int.fdiv (t.endTime - now) (60 * 1000)) ++ ":" ++
          padStart (toString (Int.fdiv (Int.tmod (t.endTime - now) (60 * 1000)) 1000)) 2 '0' := by
    intro h
    obtain ⟨t, rest, hm, htext⟩ := updateTimerBar_text_cons now st h
    obtain ⟨hmem, hmin⟩ := mergeSort_head_min hm
    refine ⟨t, hmem, hmin, ?_⟩
    rw [updateStatusBar_text]
    exact htext
  refine ⟨⟨?_, ?_⟩, hmain⟩
  · intro htext
    by_contra hne
    obtain ⟨t, -, -, heq⟩ := hmain hne
    rw [heq] at htext
    exact timerBar_format_ne _ _ _ _ htext
  · intro hnil
    rw [updateStatusBar_text]
    unfold updateTimerBar
    dsimp only
    rw [if_pos (by rw [hnil]; rfl)]

theorem statusBar_summary_witness :
    ((updateStatusBar 40000 exTimerSt).timerBarText = "No active timers" ↔
      exTimerSt.timers = []) ∧
    (exTimerSt.timers ≠ [] →
      ∃ t, t ∈ exTimerSt.timers ∧ (∀ u ∈ exTimerSt.timers, t.endTime ≤ u.endTime) ∧
        (updateStatusBar 40000 exTimerSt).timerBarText =
          toString exTimerSt.timers.length ++ " active timer(s) 🕒 " ++ t.label ++ ": " ++
          toString (Int.fdiv (t.endTime - 40000) (60 * 1000)) ++ ":" ++
          padStart (toString (Int.fdiv (Int.tmod (t.endTime - 40000) (60 * 1000)) 1000))
            2 '0') :=
  statusBar_summary 40000 exTimerSt

/-- C8: for every index that is out of range for the current task list
(negative or at least the length), Edit, Toggle and Delete leave the state
entirely unchanged and surface no message. -/
theorem taskOps_out_of_range_noop (st : St) (now index : Int) (description : String)
    (h : index < 0 ∨ (st.tasks.length : Int) ≤ index) :
    editTask now index description st = st ∧ toggleTask now index st = st ∧
      deleteTask now index st = st := by
  have hcond : ¬ (0 ≤ index ∧ index < (st.tasks.length : Int)) := by
    rcases h with h | h
    · omega
    · omega
  refine ⟨?_, ?_, ?_⟩
  · unfold editTask
    rw [if_neg hcond]
  · unfold toggleTask
    rw [if_neg hcond]
  · unfold deleteTask
    rw [if_neg hcond]

theorem taskOps_out_of_range_noop_witness :
    editTask 0 (-1) "x" initSt = initSt ∧ toggleTask 0 (-1) initSt = initSt ∧
      deleteTask 0 (-1) initSt = initSt :=
  taskOps_out_of_range_noop initSt 0 (-1) "x" (by decide)

/-- C9: a view sync with a nonempty timer list sorts the in-memory timer
list in place by ascending endTime (a permutation of the old list), and both
the persisted snapshot and the panel payload are then projections of that
sorted list, hence in ascending endTime order rather than creation order. -/
theorem viewSync_sorts_timers (now : Int) (st : St) (h : st.timers ≠ []) :
    (updateViews now st).timers = st.timers.mergeSort leEnd ∧
    (updateViews now st).timers.Pairwise (fun a b => a.endTime ≤ b.endTime) ∧
    (updateViews now st).timers.Perm st.timers ∧
    (updateViews now st).storedTimers = (updateViews now st).timers.map serializeTimer ∧
    (st.webviewAttached = true →
      (updateViews now st).webviewMessages =
        st.webviewMessages ++
          [(st.tasks, (updateViews now st).timers.map (webviewTimerEntry now))]) := by
  have ht : (updateViews now st).timers = st.timers.mergeSort leEnd := by
    rw [updateViews_timers, updateStatusBar_timers_eq now st h]
  refine ⟨ht, ?_, ?_, (persistedMatches_updateViews now st).1, ?_⟩
  · rw [ht]
    exact mergeSort_sorted _
  · rw [ht]
    exact List.mergeSort_perm _ _
  · intro hatt
    rw [updateViews_webview now st hatt, updateViews_timers]

theorem viewSync_sorts_timers_witness :
    (updateViews 0 exUnsortedSt).timers = exUnsortedSt.timers.mergeSort leEnd ∧
    (updateViews 0 exUnsortedSt).timers.Pairwise (fun a b => a.endTime ≤ b.endTime) ∧
    (updateViews 0 exUnsortedSt).timers.Perm exUnsortedSt.timers ∧
    (updateViews 0 exUnsortedSt).storedTimers =
      (updateViews 0 exUnsortedSt).timers.map serializeTimer ∧
    (exUnsortedSt.webviewAttached = true →
      (updateViews 0 exUnsortedSt).webviewMessages =
        exUnsortedSt.webviewMessages ++
          [(exUnsortedSt.tasks,
            (updateViews 0 exUnsortedSt).timers.map (webviewTimerEntry 0))]) :=
  viewSync_sorts_timers 0 exUnsortedSt (by decide)

/-- C10: in every state reachable from the freshly activated empty state by
user commands, panel messages, interval ticks and restores, the labels of
the active timers are pairwise distinct, so that removal by label-equality
filtering removes exactly one timer. -/
theorem reachable_timer_labels_distinct (st : St) (h : Reachable st) :
    (st.timers.map (fun t => t.label)).Nodup ∧
    ∀ l, l ∈ st.timers.map (fun t => t.label) →
      (st.timers.filter (fun t => t.label != l)).length + 1 = st.timers.length := by
  have hinv := reachable_labels h
  exact ⟨hinv.1, fun l hl => filter_ne_length hinv.1 hl⟩

theorem reachable_timer_labels_distinct_witness :
    ((startTimer 0 "Build" 5 (startTimer 0 "Build" 5 initSt)).timers.map
      (fun t => t.label)).Nodup ∧
    ∀ l, l ∈ (startTimer 0 "Build" 5 (startTimer 0 "Build" 5 initSt)).timers.map
        (fun t => t.label) →
      ((startTimer 0 "Build" 5 (startTimer 0 "Build" 5 initSt)).timers.filter
          (fun t => t.label != l)).length + 1 =
        (startTimer 0 "Build" 5 (startTimer 0 "Build" 5 initSt)).timers.length :=
  reachable_timer_labels_distinct _
    (Relation.ReflTransGen.tail (Relation.ReflTransGen.single (Step.startTimerS 0 "Build" 5 initSt))
      (Step.startTimerS 0 "Build" 5 (startTimer 0 "Build" 5 initSt)))

/-- C2 (amended): every user-command mutation — creating a timer with valid
inputs, stopping an existing timer, clearing all timers, adding a task, and
the in-range task edits/toggles/deletes — ends in updateViews and therefore
leaves the persisted snapshot equal to the projection of the in-memory
lists; the tick-expiry removal, by contrast, does not rewrite the persisted
snapshot (it only refreshes the status bar), leaving the snapshot stale
until the next updateViews. -/
theorem mutations_rewrite_snapshot (st : St) (now index minutes : Int)
    (label task description : String) (iv : Interval) :
    (label ≠ "" → 0 < minutes → persistedMatches (startTimer now label minutes st)) ∧
    ((∃ t ∈ st.timers, t.label = label) → persistedMatches (stopTimer now label st)) ∧
    persistedMatches (clearTimers now st) ∧
    (task ≠ "" → persistedMatches (addTask now task st)) ∧
    (0 ≤ index → index < (st.tasks.length : Int) →
      persistedMatches (editTask now index description st) ∧
      persistedMatches (toggleTask now index st) ∧
      persistedMatches (deleteTask now index st)) ∧
    (runCallback now iv st).storedTimers = st.storedTimers ∧
    (runCallback now iv st).storedTasks = st.storedTasks := by
  refine ⟨?_, ?_, ?_, ?_, ?_, (runCallback_stored now iv st).1, (runCallback_stored now iv st).2⟩
  · intro h1 h2
    unfold startTimer
    dsimp only
    rw [if_neg h1, if_neg (by omega : ¬ minutes ≤ 0)]
    exact persistedMatches_updateViews now _
  · rintro ⟨t, ht, hlab⟩
    have hsome : (st.timers.find? (fun timer => timer.label == label)).isSome := by
      rw [List.find?_isSome]
      exact ⟨t, ht, by rw [beq_iff_eq]; exact hlab⟩
    obtain ⟨timer, heq⟩ := Option.isSome_iff_exists.1 hsome
    unfold stopTimer
    rw [heq]
    exact persistedMatches_updateViews now _
  · unfold clearTimers
    dsimp only
    exact persistedMatches_updateViews now _
  · intro h1
    unfold addTask
    rw [if_neg h1]
    exact persistedMatches_updateViews now _
  · intro h1 h2
    have hcond : 0 ≤ index ∧ index < (st.tasks.length : Int) := ⟨h1, h2⟩
    refine ⟨?_, ?_, ?_⟩
    · unfold editTask
      rw [if_pos hcond]
      exact persistedMatches_updateViews now _
    · unfold toggleTask
      rw [if_pos hcond]
      exact persistedMatches_updateViews now _
    · unfold deleteTask
      rw [if_pos hcond]
      exact persistedMatches_updateViews now _

theorem mutations_rewrite_snapshot_witness :
    persistedMatches (startTimer 0 "Build" 5 initSt) :=
  (mutations_rewrite_snapshot initSt 0 0 5 "Build" "t" "d"
    { handle := 0, callback := Callback.restored 0 }).1 (by decide) (by decide)

/-- C2 counterexample: at the moment a timer's own tick finds remaining <= 0
it removes the timer from the in-memory list but does not rewrite the
persisted snapshot — afterwards the snapshot still holds the removed timer
while the in-memory list is empty, refuting the claim that every mutation
(including tick-expiry removal) rewrites the snapshot. -/
theorem tick_expiry_leaves_stale_snapshot :
    (runCallback 60000 { handle := 0, callback := Callback.fresh "A" 60000 } exSyncedSt).timers
      = [] ∧
    (runCallback 60000 { handle := 0, callback := Callback.fresh "A" 60000 }
        exSyncedSt).storedTimers = [{ label := "A", endTime := 60000 }] ∧
    (runCallback 60000 { handle := 0, callback := Callback.fresh "A" 60000 }
        exSyncedSt).storedTimers ≠
      ((runCallback 60000 { handle := 0, callback := Callback.fresh "A" 60000 }
          exSyncedSt).timers).map serializeTimer := by
  refine ⟨by decide, by decide, by decide⟩

/-- C6: after stopping an existing label, and after clearing all timers, the
removed timers' periodic callbacks are already deregistered, and along every
later sequence of event-loop turns those handles are never registered again
— so no tick of a removed timer can ever fire (a tick step requires its
callback to be currently registered). -/
theorem cancellation_deregisters (st : St) (now : Int) (label : String) (timer : Timer)
    (hinv : HandleInv st)
    (hfind : st.timers.find? (fun t => t.label == label) = some timer) :
    (timer.timerInterval ∉ regHandles (stopTimer now label st) ∧
      ∀ s', Steps (stopTimer now label st) s' → timer.timerInterval ∉ regHandles s') ∧
    (∀ t ∈ st.timers, t.timerInterval ∉ regHandles (clearTimers now st) ∧
      ∀ s', Steps (clearTimers now st) s' → t.timerInterval ∉ regHandles s') := by
  have hmem : timer ∈ st.timers := List.mem_of_find?_eq_some hfind
  have hlt : timer.timerInterval < st.nextHandle := hinv.2 timer hmem
  have hregS : (stopTimer now label st).registered =
      st.registered.filter (fun iv => iv.handle != timer.timerInterval) := by
    unfold stopTimer
    rw [hfind]
    dsimp only
    rw [updateViews_registered]
    rfl
  have hnotS : timer.timerInterval ∉ regHandles (stopTimer now label st) := by
    rw [regHandles, hregS]
    intro hmm
    rcases List.mem_map.1 hmm with ⟨iv, hiv, hh⟩
    rw [List.mem_filter] at hiv
    have hne := hiv.2
    rw [bne_iff_ne] at hne
    exact hne hh
  constructor
  · refine ⟨hnotS, fun s' hsteps => ?_⟩
    exact (steps_no_resurrect hsteps timer.timerInterval
      (by rw [(stopTimer_handles now label st).1]; exact hlt) hnotS).2
  · intro t ht
    have hltT : t.timerInterval < st.nextHandle := hinv.2 t ht
    have hregC : (clearTimers now st).registered =
        st.registered.filter
          (fun iv => !(st.timers.any (fun tt => tt.timerInterval == iv.handle))) := by
      unfold clearTimers
      dsimp only
      rw [updateViews_registered]
    have hnotC : t.timerInterval ∉ regHandles (clearTimers now st) := by
      rw [regHandles, hregC]
      intro hmm
      rcases List.mem_map.1 hmm with ⟨iv, hiv, hh⟩
      rw [List.mem_filter] at hiv
      have h2 := hiv.2
      rw [Bool.not_eq_true'] at h2
      have h3 : st.timers.any (fun tt => tt.timerInterval == iv.handle) = true := by
        rw [List.any_eq_true]
        refine ⟨t, ht, ?_⟩
        rw [beq_iff_eq]
        exact hh.symm
      rw [h3] at h2
      cases h2
    refine ⟨hnotC, fun s' hsteps => ?_⟩
    exact (steps_no_resurrect hsteps t.timerInterval
      (by rw [(clearTimers_handles now st).1]; exact hltT) hnotC).2

theorem cancellation_deregisters_witness :
    ({ label := "A", timerInterval := 0, endTime := 100000 } : Timer).timerInterval ∉
      regHandles (stopTimer 0 "A" exTimerSt) :=
  (cancellation_deregisters exTimerSt 0 "A" { label := "A", timerInterval := 0, endTime := 100000 }
    (by rw [HandleInv]; exact ⟨by decide, by decide⟩) (by decide)).1.1

/-- C1 (amended): Restore re-arms, for every snapshot entry that is still
live (endTime > now), a periodic callback and re-adds a timer with the same
label and endTime to the active list; but the re-armed tick's expiry
behaviour is NOT that of a freshly created timer: when endTime - now
reaches <= 0 it only cancels its own periodic callback — it emits no
notification and no message, does not remove the timer from the active
list, and triggers no view sync. -/
theorem restore_rearms_inert_tick (st : St) (now : Int) (e : StoredTimer)
    (hmem : e ∈ st.storedTimers) (hlive : now < e.endTime) :
    ∃ h, ({ handle := h, callback := Callback.restored e.endTime } : Interval) ∈
        (restoreTimers now st).registered ∧
      ({ label := e.label, timerInterval := h, endTime := e.endTime } : Timer) ∈
        (restoreTimers now st).timers ∧
      ∀ (s : St) (tickNow : Int), e.endTime - tickNow ≤ 0 →
        runCallback tickNow { handle := h, callback := Callback.restored e.endTime } s =
          { s with registered := s.registered.filter (fun iv => iv.handle != h) } := by
  obtain ⟨h, hreg, htim⟩ :=
    restoreLoop_mem now st.storedTimers { st with timers := [] } e hmem hlive
  refine ⟨h, ?_, ?_, ?_⟩
  · unfold restoreTimers
    rw [updateStatusBar_registered]
    exact hreg
  · unfold restoreTimers
    obtain ⟨tms, s1, s2, hS, hp⟩ :=
      updateStatusBar_spec now (restoreLoop now st.storedTimers { st with timers := [] })
    rw [hS]
    dsimp only
    exact hp.mem_iff.2 htim
  · intro s tickNow hexp
    unfold runCallback
    dsimp only
    unfold tickRestored
    rw [if_pos hexp]
    unfold deregister
    rfl

theorem restore_rearms_inert_tick_witness :
    ∃ h, ({ handle := h, callback := Callback.restored (60000 : Int) } : Interval) ∈
        (restoreTimers 0 exSnapshotSt).registered ∧
      ({ label := "A", timerInterval := h, endTime := 60000 } : Timer) ∈
        (restoreTimers 0 exSnapshotSt).timers ∧
      ∀ (s : St) (tickNow : Int), (60000 : Int) - tickNow ≤ 0 →
        runCallback tickNow { handle := h, callback := Callback.restored (60000 : Int) } s =
          { s with registered := s.registered.filter (fun iv => iv.handle != h) } :=
  restore_rearms_inert_tick exSnapshotSt 0 { label := "A", endTime := 60000 }
    (by decide) (by decide)

/-- C1 counterexample: restore the snapshot entry ("A", 60000) at time 0 and
run its re-armed tick at time 60000 (expiry): the timer is NOT removed from
the active list, no desktop notification and no in-editor message is
emitted, and the persisted snapshot is untouched — unlike a fresh timer's
expiry, refuting the claim that the behaviours are identical. -/
theorem restored_tick_no_completion_effects :
    (runCallback 60000 { handle := 0, callback := Callback.restored 60000 }
        (restoreTimers 0 exSnapshotSt)).timers ≠ [] ∧
    (runCallback 60000 { handle := 0, callback := Callback.restored 60000 }
        (restoreTimers 0 exSnapshotSt)).notifications = [] ∧
    (runCallback 60000 { handle := 0, callback := Callback.restored 60000 }
        (restoreTimers 0 exSnapshotSt)).infoMessages = [] ∧
    (runCallback 60000 { handle := 0, callback := Callback.restored 60000 }
        (restoreTimers 0 exSnapshotSt)).storedTimers = exSnapshotSt.storedTimers := by
  refine ⟨by decide, by decide, by decide, by decide⟩

theorem updateStatusBar_timers_empty (now : Int) (st : St) (h : st.timers = []) :
    (updateStatusBar now st).timers = st.timers := by
  unfold updateStatusBar
  obtain ⟨s2, hT⟩ := updateTaskBar_spec (updateTimerBar now st)
  rw [hT]
  dsimp only
  unfold updateTimerBar
  dsimp only
  rw [if_pos (by rw [h]; rfl)]

/-- C3 (amended): for every persisted snapshot that is sorted by ascending
endTime — which includes every snapshot the program itself writes, since a
view sync persists the list only after sorting it — Restore at time t
reconstructs exactly the entries with endTime > t, with identical labels and
endTimes and in the same order; expired entries are dropped. For an
unsorted snapshot the same entries are reconstructed but re-ordered
ascending by endTime. -/
theorem roundtrip_restore_sorted (st : St) (now : Int)
    (hsorted : st.storedTimers.Pairwise (fun a b => a.endTime ≤ b.endTime)) :
    ((restoreTimers now st).timers).map serializeTimer =
      st.storedTimers.filter (fun e => decide (now < e.endTime)) := by
  have hser : ((restoreLoop now st.storedTimers { st with timers := [] }).timers).map
      serializeTimer = st.storedTimers.filter (fun e => decide (now < e.endTime)) := by
    rw [restoreLoop_serialize]
    dsimp only
    rw [List.map_nil, List.nil_append]
  by_cases hL : (restoreLoop now st.storedTimers { st with timers := [] }).timers = []
  · unfold restoreTimers
    rw [updateStatusBar_timers_empty now _ hL, hL]
    rw [hL] at hser
    exact hser
  · unfold restoreTimers
    rw [updateStatusBar_timers_eq now _ hL]
    have hpairS : (((restoreLoop now st.storedTimers { st with timers := [] }).timers).map
        serializeTimer).Pairwise (fun a b : StoredTimer => a.endTime ≤ b.endTime) := by
      rw [hser]
      exact List.Pairwise.sublist (List.filter_sublist _) hsorted
    have hpairT : ((restoreLoop now st.storedTimers { st with timers := [] }).timers).Pairwise
        (fun a b : Timer => a.endTime ≤ b.endTime) := by
      rw [List.pairwise_map] at hpairS
      exact hpairS
    rw [mergeSort_sorted_eq hpairT]
    exact hser

theorem roundtrip_restore_sorted_witness :
    ((restoreTimers 150000 exSortedSnapshotSt).timers).map serializeTimer =
      exSortedSnapshotSt.storedTimers.filter (fun e => decide ((150000 : Int) < e.endTime)) :=
  roundtrip_restore_sorted exSortedSnapshotSt 150000 (by decide)

/-- C3 counterexample: the active list [("B",200000), ("A",100000)] is not
in ascending endTime order; serializing it (faithfully, to the same order)
and restoring at time 0 yields the list re-sorted to [("A",100000),
("B",200000)] — same entries but NOT the same order, refuting the claim as
stated for every active timer list. -/
theorem roundtrip_restore_reorders :
    exUnsortedSt.storedTimers = exUnsortedSt.timers.map serializeTimer ∧
    ((restoreTimers 0 exUnsortedSt).timers).map serializeTimer ≠
      (exUnsortedSt.timers.map serializeTimer).filter
        (fun e => decide ((0 : Int) < e.endTime)) := by
  refine ⟨by decide, by decide⟩

end TaskTracker
